import Mathlib

/-!
Shallow embedding of the market-data/trading core of the repository
(DataBridge.py, OrderBookManager.py, TapeFilter.py, ZenMaster.py, main.py).

Python numeric text is modelled by `PyStr`: the `repr` field is the exact
text (dict keys are exact strings), and `val` is the result of `float(s)`:
`some q` when the text parses as a number, `none` when `float` would raise.
Python dicts are modelled as insertion-ordered association lists; a raised
exception is modelled by the `Except.error` constructor carrying the state
as mutated up to the raise point.
-/

namespace Sdfs

/-- A Python string (or scalar) carried in an ingested event. `val` is the
result of `float(·)` on it: `none` when `float` raises. -/
structure PyStr where
  repr : String
  val : Option ℚ
deriving DecidableEq

/-- The Python value `None`: `float(None)` raises `TypeError`. -/
def noneLit : PyStr := ⟨"None", none⟩

/-- A value stored under the trade's `time` key: an integer, or any
non-integer value (`mal`), whose comparison against an int raises. -/
inductive TVal where
  | int : Int → TVal
  | mal : TVal
deriving DecidableEq

/-- A value stored under the trade's `is_buyer_maker` key, as tested by
`trade.get(..., False) is False`: key absent, a bool literal, or any
other value (e.g. `None`). -/
inductive PyBool where
  | absent : PyBool
  | lit : Bool → PyBool
  | other : PyBool
deriving DecidableEq

/-- A trade dict as consumed by `MarketDataBridge.add_trade`; `none` on an
`Option` field means the key is absent from the dict. -/
structure Trade where
  price : Option PyStr
  quantity : Option PyStr
  time : Option TVal
  is_buyer_maker : PyBool
  trade_id : Option Int
deriving DecidableEq

/-- A price-level map (`Dict[str, str]`), insertion-ordered. -/
abbrev Book := List (PyStr × PyStr)

/-- Python `d[k] = v`: replace in place when the key exists (keeping its
position), otherwise append. -/
def dictSet (d : Book) (k v : PyStr) : Book :=
  if d.any (fun p => p.1 == k) then
    d.map (fun p => if p.1 == k then (k, v) else p)
  else d ++ [(k, v)]

/-- Python `d.pop(k, None)`. -/
def dictPop (d : Book) (k : PyStr) : Book :=
  d.filter (fun p => !(p.1 == k))

/-- Python `d.get(k)` for a level map. -/
def dictLookup (d : Book) (k : PyStr) : Option PyStr :=
  (d.find? (fun p => p.1 == k)).map (fun p => p.2)

/-- Embedding of `float(x[0])` on a price key, defaulting (only ever used on keys known
to parse). -/
def keyVal (p : PyStr × PyStr) : ℚ := p.1.val.getD 0

/-- Bid-side comparison, numeric and descending: `a` sorts before `b`. -/
def bidRel (a b : PyStr × PyStr) : Prop := keyVal b ≤ keyVal a

/-- Ask-side comparison, numeric and ascending: `a` sorts before `b`. -/
def askRel (a b : PyStr × PyStr) : Prop := keyVal a ≤ keyVal b

instance : DecidableRel bidRel :=
  fun a b => inferInstanceAs (Decidable (keyVal b ≤ keyVal a))

instance : DecidableRel askRel :=
  fun a b => inferInstanceAs (Decidable (keyVal a ≤ keyVal b))

instance : IsTotal (PyStr × PyStr) bidRel :=
  ⟨fun a b => le_total (keyVal b) (keyVal a)⟩

instance : IsTotal (PyStr × PyStr) askRel :=
  ⟨fun a b => le_total (keyVal a) (keyVal b)⟩

instance : IsTrans (PyStr × PyStr) bidRel :=
  ⟨fun _ _ _ hab hbc => le_trans hbc hab⟩

instance : IsTrans (PyStr × PyStr) askRel :=
  ⟨fun _ _ _ hab hbc => le_trans hab hbc⟩

/-- Embedding of `deque(maxlen=100).append`: append, evicting the oldest past 100. -/
def pushTrade (l : List Trade) (t : Trade) : List Trade :=
  let l2 := l ++ [t]
  if 100 < l2.length then l2.drop (l2.length - 100) else l2

/-- The shared state of `MarketDataBridge`. -/
structure MarketDataBridge where
  current_price : ℚ
  last_trade_time : Int
  recent_trades : List Trade
  bids : Book
  asks : Book
deriving DecidableEq

/-- A freshly constructed bridge. -/
def bridge0 : MarketDataBridge :=
  { current_price := 0, last_trade_time := 0, recent_trades := [],
    bids := [], asks := [] }

/-- Embedding of `float(trade.get(key, dflt))` where `dflt` is a number that reparses to
itself: absent key gives the default, a present key parses or raises. -/
def floatOrDefault (f : Option PyStr) (dflt : ℚ) : Option ℚ :=
  match f with
  | none => some dflt
  | some s => s.val

/-- Embedding of `MarketDataBridge.add_trade`. The trade is appended to the window
first; then, when `trade.get('time', 0) > self._last_trade_time`, the
price is reparsed and both scalars are assigned. An `error` result is a
raised exception (`TypeError` on comparing a non-int time, `ValueError` /
`TypeError` from `float` on a malformed price), carrying the state as
already mutated. -/
def add_trade (st : MarketDataBridge) (trade : Trade) :
    Except MarketDataBridge MarketDataBridge :=
  let st1 := { st with recent_trades := pushTrade st.recent_trades trade }
  match trade.time with
  | some TVal.mal => .error st1
  | some (TVal.int t) =>
      if st1.last_trade_time < t then
        match floatOrDefault trade.price st1.current_price with
        | none => .error st1
        | some p => .ok { st1 with current_price := p, last_trade_time := t }
      else .ok st1
  | none =>
      if st1.last_trade_time < 0 then
        match floatOrDefault trade.price st1.current_price with
        | none => .error st1
        | some p => .ok { st1 with current_price := p }
      else .ok st1

/-- Embedding of `MarketDataBridge.update_order_book`: wholesale swap of both maps,
stored verbatim. -/
def update_order_book (st : MarketDataBridge) (bids asks : Book) :
    MarketDataBridge :=
  { st with bids := bids, asks := asks }

/-- The per-pair loop body shared by `update_bids` / `update_asks`:
delete the key when `float(quantity) == 0`, else upsert; `float` on a
malformed quantity raises mid-loop, keeping the mutations made so far. -/
def mergeLevels : Book → List (PyStr × PyStr) → Except Book Book
  | d, [] => .ok d
  | d, (price, quantity) :: rest =>
      match quantity.val with
      | none => .error d
      | some q =>
          mergeLevels (if q = 0 then dictPop d price else dictSet d price quantity) rest

/-- Embedding of `MarketDataBridge.update_bids`. -/
def update_bids (st : MarketDataBridge) (levels : List (PyStr × PyStr)) :
    Except MarketDataBridge MarketDataBridge :=
  match mergeLevels st.bids levels with
  | .error d => .error { st with bids := d }
  | .ok d => .ok { st with bids := d }

/-- Embedding of `MarketDataBridge.update_asks`. -/
def update_asks (st : MarketDataBridge) (levels : List (PyStr × PyStr)) :
    Except MarketDataBridge MarketDataBridge :=
  match mergeLevels st.asks levels with
  | .error d => .error { st with asks := d }
  | .ok d => .ok { st with asks := d }

/-- A sequence of `update_bids` calls, stopping at the first raise. -/
def update_bids_seq (st : MarketDataBridge) :
    List (List (PyStr × PyStr)) → Except MarketDataBridge MarketDataBridge
  | [] => .ok st
  | l :: ls =>
      match update_bids st l with
      | .error s => .error s
      | .ok s => update_bids_seq s ls

/-- Embedding of `MarketDataBridge.get_top_n_levels`: sort bids descending and asks
ascending by `float` of the key (Python's `sorted` is stable, as is
`List.insertionSort`), truncate each to `n`. `float` on a malformed key
raises (no state is mutated). -/
def get_top_n_levels (st : MarketDataBridge) (n : ℕ) :
    Except Unit (Book × Book) :=
  if st.bids.all (fun p => p.1.val.isSome) && st.asks.all (fun p => p.1.val.isSome) then
    .ok ((st.bids.insertionSort bidRel).take n, (st.asks.insertionSort askRel).take n)
  else .error ()

/-- Embedding of `sum(float(qty) for qty in d.values())`: `none` when some quantity is
malformed (the generator raises). -/
def sumQty (d : Book) : Option ℚ :=
  d.foldr
    (fun p acc =>
      match p.2.val, acc with
      | some q, some s => some (q + s)
      | _, _ => none)
    (some 0)

/-- Embedding of `OrderBookManager.calculates_bid_ask_imbalance`: top-10 of each side;
0.0 when either side is empty or the combined sum is 0; otherwise the
normalized difference. `none` is a raise (malformed key or quantity). -/
def calculates_bid_ask_imbalance (st : MarketDataBridge) : Option ℚ :=
  match get_top_n_levels st 10 with
  | .error _ => none
  | .ok (top_bids, top_asks) =>
      if top_bids.isEmpty || top_asks.isEmpty then some 0
      else
        match sumQty top_bids, sumQty top_asks with
        | some b, some a =>
            if b + a = 0 then some 0 else some ((b - a) / (b + a))
        | _, _ => none

/-- Embedding of `float(trade.get('quantity', 0))`: 0 when the key is absent, raise on
a malformed value. -/
def tradeSize (t : Trade) : Option ℚ := floatOrDefault t.quantity 0

/-- Embedding of `trade.get('is_buyer_maker', False) is False`: the aggressor-buy test.
An absent key defaults to `False` (so the test holds); only the literal
`False` satisfies `is False`. -/
def isBuyer (t : Trade) : Bool :=
  match t.is_buyer_maker with
  | PyBool.absent => true
  | PyBool.lit b => !b
  | PyBool.other => false

/-- Embedding of `statistics.median` on a nonempty list: sort ascending; middle element
when odd, mean of the two middles when even. -/
def pymedian (l : List ℚ) : ℚ :=
  let s := l.insertionSort (fun a b => a ≤ b)
  let n := s.length
  if n % 2 = 1 then s.getD (n / 2) 0
  else (s.getD (n / 2 - 1) 0 + s.getD (n / 2) 0) / 2

/-- One iteration of the `detects_large_trade_sequence` scan: the updated
`(sequence_count, last_direction)` after seeing one trade of the given
size and direction. A trade is "large" when `size > threshold * med`; a
large trade extends the run when the direction matches the recorded one
(or none is recorded yet) and otherwise restarts it at 1; a non-large
trade resets the count to 0 and leaves the recorded direction alone. -/
def ltsStep (threshold med size : ℚ) (dir : Bool) (cnt : ℕ)
    (last : Option Bool) : ℕ × Option Bool :=
  if threshold * med < size then
    (match last with
     | none => cnt + 1
     | some d => if d = dir then cnt + 1 else 1,
     some dir)
  else (0, last)

/-- The scan loop of `detects_large_trade_sequence` over the (size,
is-buyer) pairs of the 10 most recent trades, returning true as soon as
the running count reaches `minSeq`. -/
def ltsLoop (minSeq : ℕ) (threshold med : ℚ) :
    List (ℚ × Bool) → ℕ → Option Bool → Bool
  | [], _, _ => false
  | (size, dir) :: rest, cnt, last =>
      if minSeq ≤ (ltsStep threshold med size dir cnt last).1 then true
      else
        ltsLoop minSeq threshold med rest
          (ltsStep threshold med size dir cnt last).1
          (ltsStep threshold med size dir cnt last).2

/-- The last `n` elements of a list (`l[-n:]` for `n ≤ len(l)`). -/
def lastN (n : ℕ) (l : List α) : List α := l.drop (l.length - n)

/-- Embedding of `TapeFilter.detects_large_trade_sequence` (defaults `min_sequence=3`,
`threshold=10.0`): false on fewer than 10 trades; otherwise the median of
all trade sizes is taken and the 10 most recent trades are scanned for a
run of `min_sequence` consecutive large same-direction trades. The size
generator raises (`none`) on a malformed quantity. -/
def detects_large_trade_sequence (st : MarketDataBridge)
    (min_sequence : ℕ := 3) (threshold : ℚ := 10) : Option Bool :=
  let ts := st.recent_trades
  if ts.length < 10 then some false
  else
    match ts.mapM tradeSize with
    | none => none
    | some sizes =>
        let med := pymedian sizes
        let pairs := (lastN 10 ts).map (fun t => ((tradeSize t).getD 0, isBuyer t))
        some (ltsLoop min_sequence threshold med pairs 0 none)

/-- The `BotState` enumeration of ZenMaster. -/
inductive BotState where
  | watching_in_nirvana : BotState
  | waiting_for_entry : BotState
  | in_trade : BotState
  | exiting_trade : BotState
deriving DecidableEq

/-- The mutable position/ledger state of `ZenMaster`. -/
structure ZenMaster where
  capital : ℚ
  state : BotState
  entry_price : ℚ
  position_size : ℚ
  entry_time : Int
  trades_executed : ℕ
  profitable_trades : ℕ
  total_profit_loss : ℚ
deriving DecidableEq

/-- A freshly constructed `ZenMaster` (initial capital 1000.0). -/
def zen0 : ZenMaster :=
  { capital := 1000, state := BotState.watching_in_nirvana, entry_price := 0,
    position_size := 0, entry_time := 0, trades_executed := 0,
    profitable_trades := 0, total_profit_loss := 0 }

/-- Embedding of `ZenMaster.enter_trade`: 2% risk sizing; `risk_amount / entry_price`
raises `ZeroDivisionError` on a zero entry price (before any mutation). -/
def enter_trade (z : ZenMaster) (entry_price : ℚ) (now : Int) :
    Except ZenMaster ZenMaster :=
  if entry_price = 0 then .error z
  else
    .ok { z with
          position_size := (z.capital * (2 / 100)) / entry_price,
          entry_price := entry_price, entry_time := now,
          state := BotState.in_trade }

/-- The PnL percentage `((current - entry) / entry) * 100` used by
`should_exit_trade` and `exit_trade`. -/
def pnlPct (entry current : ℚ) : ℚ := ((current - entry) / entry) * 100

/-- Embedding of `ZenMaster.should_exit_trade`: take profit at pnl ≥ 6.0, stop loss at
pnl ≤ -2.0, reversal exit when the bid-ask imbalance < -0.5, else hold.
The division raises on `entry_price = 0`; the imbalance (and any raise
from it) is only computed when neither pnl branch fired. -/
def should_exit_trade (z : ZenMaster) (st : MarketDataBridge)
    (current_price : ℚ) : Option Bool :=
  if z.entry_price = 0 then none
  else
    let pnl := pnlPct z.entry_price current_price
    if 6 ≤ pnl then some true
    else if pnl ≤ -2 then some true
    else
      match calculates_bid_ask_imbalance st with
      | none => none
      | some imb => some (decide (imb < -(1 / 2)))

/-- Embedding of `ZenMaster.exit_trade`: the PnL division raises on a zero stored entry
price (before any mutation); otherwise the ledger is updated and the
position fields reset. -/
def exit_trade (z : ZenMaster) (exit_price : ℚ) : Except ZenMaster ZenMaster :=
  if z.entry_price = 0 then .error z
  else
    let pnl_amount := z.position_size * (exit_price - z.entry_price)
    .ok { z with
          trades_executed := z.trades_executed + 1,
          total_profit_loss := z.total_profit_loss + pnl_amount,
          profitable_trades :=
            z.profitable_trades + (if 0 < pnl_amount then 1 else 0),
          capital := z.capital + pnl_amount,
          entry_price := 0, position_size := 0, entry_time := 0,
          state := BotState.watching_in_nirvana }

/-- A raw Binance trade event as delivered to `on_trade_update` (`none`
means the key is absent from the event dict). -/
structure TradeData where
  p : Option PyStr
  q : Option PyStr
  T : Option TVal
  m : Option Bool
  t : Option Int
deriving DecidableEq

/-- Embedding of `main.on_trade_update`: build `processed_trade` (every key present,
absent raw fields becoming `None`), call `add_trade`, then assign the
unguarded `current_price` setter from `float(processed_trade['price'])`. -/
def on_trade_update (st : MarketDataBridge) (td : TradeData) :
    Except MarketDataBridge MarketDataBridge :=
  let processed : Trade :=
    { price := some (td.p.getD noneLit),
      quantity := some (td.q.getD noneLit),
      time := some (td.T.getD TVal.mal),
      is_buyer_maker :=
        match td.m with
        | none => PyBool.other
        | some b => PyBool.lit b,
      trade_id := td.t }
  match add_trade st processed with
  | .error s => .error s
  | .ok s =>
      match (td.p.getD noneLit).val with
      | none => .error s
      | some q => .ok { s with current_price := q }

/-- The no-zero-quantity invariant on a level map: no stored quantity
parses to exactly 0. -/
def noZeroQty (d : Book) : Prop := ∀ p ∈ d, p.2.val ≠ some 0

/-! ### Concrete states and events used by counterexamples and witnesses -/

/-- A bridge that has already recorded a trade at timestamp 5, price 10. -/
def tieSt : MarketDataBridge :=
  { bridge0 with current_price := 10, last_trade_time := 5 }

/-- A well-formed trade dict with integer time `t` and numeric price `p`. -/
def numTrade (t : Int) (p : ℚ) : Trade :=
  { price := some ⟨"p", some p⟩, quantity := none, time := some (TVal.int t),
    is_buyer_maker := PyBool.absent, trade_id := none }

/-- A trade whose price key is present but holds non-numeric text. -/
def malPriceTrade : Trade :=
  { price := some ⟨"garbage", none⟩, quantity := none,
    time := some (TVal.int 9), is_buyer_maker := PyBool.absent,
    trade_id := none }

/-! ### C1 -/

/-- C1 (counterexample): at a tied timestamp (incoming time 5 equals the
stored `last_trade_time` 5) `add_trade` leaves both scalars unchanged —
the guard is `>`, not `>=` — so the price stays 10 instead of becoming
the trade's price 20 as the claim requires for ties. -/
theorem add_trade_tie_counterexample :
    (add_trade tieSt (numTrade 5 20)).toOption.map
        (fun m => (m.current_price, m.last_trade_time)) = some ((10 : ℚ), (5 : Int))
      ∧ ((10 : ℚ), (5 : Int)) ≠ ((20 : ℚ), (5 : Int)) := by
  constructor
  · rfl
  · decide

/-- C1 (amended): for a trade with integer timestamp `t` and parseable
price `q`, `add_trade` sets `current_price = q` and `last_trade_time = t`
exactly when `t` is strictly greater than the stored timestamp, and
leaves both scalars unchanged when `t` is less than or equal to it. -/
theorem add_trade_updates_iff_strictly_newer
    (st : MarketDataBridge) (tr : Trade) (t : Int) (s : PyStr) (q : ℚ)
    (ht : tr.time = some (TVal.int t)) (hp : tr.price = some s)
    (hq : s.val = some q) :
    (add_trade st tr).toOption.map (fun m => (m.current_price, m.last_trade_time))
      = some (if st.last_trade_time < t then (q, t)
              else (st.current_price, st.last_trade_time)) := by
  simp only [add_trade, ht, hp, floatOrDefault, hq]
  split <;> simp [Except.toOption]

/-- Witness for C1's amended theorem at a concrete fresh bridge and a
concrete newer trade. -/
theorem add_trade_updates_iff_strictly_newer_witness :
    (add_trade bridge0 (numTrade 5 7)).toOption.map
        (fun m => (m.current_price, m.last_trade_time)) = some ((7 : ℚ), (5 : Int)) := by
  have h := add_trade_updates_iff_strictly_newer bridge0 (numTrade 5 7) 5
    ⟨"p", some 7⟩ 7 rfl rfl rfl
  rw [h]; rfl

/-! ### C2 -/

/-- C2 (counterexample): a trade whose price field is present but
malformed makes `add_trade` raise (`float` ValueError) once the time
guard passes: the ingestion call does not complete normally. -/
theorem add_trade_malformed_counterexample :
    (add_trade tieSt malPriceTrade).isOk = false := by
  rfl

/-- Helper: the merge loop completes when every quantity parses. -/
theorem mergeLevels_isOk (l : List (PyStr × PyStr)) :
    ∀ d : Book, (∀ pq ∈ l, pq.2.val.isSome = true) →
      ∃ d', mergeLevels d l = .ok d' := by
  induction l with
  | nil => intro d _; exact ⟨d, rfl⟩
  | cons pq rest ih =>
      intro d h
      have hq : pq.2.val.isSome = true := h pq (List.mem_cons_self pq rest)
      obtain ⟨q, hq'⟩ := Option.isSome_iff_exists.mp hq
      obtain ⟨d', hd'⟩ :=
        ih (if q = 0 then dictPop d pq.1 else dictSet d pq.1 pq.2)
          (fun x hx => h x (List.mem_cons_of_mem pq hx))
      exact ⟨d', by simp only [mergeLevels, hq']; exact hd'⟩

/-- C2 (amended): ingestion tolerates MISSING numeric fields — an absent
time compares as 0 and an absent price reparses the current price, so a
trade whose present fields are well-formed (and in particular a trade
with no fields at all, which leaves both scalars unchanged) is ingested
without raising, as are depth merges whose quantities all parse; but a
PRESENT malformed numeric field raises, so ingestion is not total. -/
theorem ingestion_tolerates_missing_fields :
    (∀ (st : MarketDataBridge) (tr : Trade),
        (tr.time = none ∨ ∃ t, tr.time = some (TVal.int t)) →
        (tr.price = none ∨ ∃ s q, tr.price = some s ∧ s.val = some q) →
        (add_trade st tr).isOk = true)
    ∧ (∀ (st : MarketDataBridge) (tr : Trade),
        tr.price = none → tr.time = none →
        add_trade st tr
          = .ok { st with recent_trades := pushTrade st.recent_trades tr })
    ∧ (∀ (st : MarketDataBridge) (levels : List (PyStr × PyStr)),
        (∀ pq ∈ levels, pq.2.val.isSome = true) →
        (update_bids st levels).isOk = true
          ∧ (update_asks st levels).isOk = true) := by
  refine ⟨?_, ?_, ?_⟩
  · intro st tr htime hprice
    rcases htime with ht | ⟨t, ht⟩
    · rcases hprice with hp | ⟨s, q, hp, hq⟩
      · simp only [add_trade, ht, floatOrDefault, hp]
        split <;> rfl
      · simp only [add_trade, ht, floatOrDefault, hp, hq]
        split <;> rfl
    · rcases hprice with hp | ⟨s, q, hp, hq⟩
      · simp only [add_trade, ht, floatOrDefault, hp]
        split <;> rfl
      · simp only [add_trade, ht, floatOrDefault, hp, hq]
        split <;> rfl
  · intro st tr hp ht
    simp only [add_trade, ht, floatOrDefault, hp]
    split <;> rfl
  · intro st levels h
    obtain ⟨db, hdb⟩ := mergeLevels_isOk levels st.bids h
    obtain ⟨da, hda⟩ := mergeLevels_isOk levels st.asks h
    refine ⟨?_, ?_⟩
    · simp only [update_bids, hdb]; rfl
    · simp only [update_asks, hda]; rfl

/-- Witness for C2's amended theorem: a trade with both numeric fields
absent and a one-level depth merge are ingested without raising. -/
theorem ingestion_tolerates_missing_fields_witness :
    (add_trade tieSt
        { price := none, quantity := none, time := none,
          is_buyer_maker := PyBool.absent, trade_id := none }).isOk = true
      ∧ (update_bids tieSt [(⟨"1", some 1⟩, ⟨"2", some 2⟩)]).isOk = true := by
  constructor
  · exact ingestion_tolerates_missing_fields.1 tieSt _ (Or.inl rfl) (Or.inl rfl)
  · exact (ingestion_tolerates_missing_fields.2.2 tieSt _
      (by intro pq h; simp at h; simp [h])).1

/-! ### C3 -/

/-- Helper: every entry of `dictSet d k v` is either `(k, v)` or an entry
of `d`. -/
theorem mem_dictSet {d : Book} {k v : PyStr} {x : PyStr × PyStr}
    (hx : x ∈ dictSet d k v) : x = (k, v) ∨ x ∈ d := by
  unfold dictSet at hx
  split at hx
  · obtain ⟨p, hp, hpx⟩ := List.mem_map.mp hx
    by_cases h : p.1 == k
    · left; rw [← hpx]; simp [h]
    · right; rw [← hpx]; simpa [h] using hp
  · rcases List.mem_append.mp hx with h | h
    · right; exact h
    · left; simpa using h

/-- Helper: popping preserves the no-zero invariant. -/
theorem noZero_dictPop {d : Book} (h : noZeroQty d) (k : PyStr) :
    noZeroQty (dictPop d k) := by
  intro p hp
  exact h p (List.mem_of_mem_filter hp)

/-- Helper: upserting a quantity that does not parse to 0 preserves the
no-zero invariant. -/
theorem noZero_dictSet {d : Book} (h : noZeroQty d) {k v : PyStr}
    (hv : v.val ≠ some 0) : noZeroQty (dictSet d k v) := by
  intro p hp
  rcases mem_dictSet hp with rfl | hp'
  · exact hv
  · exact h p hp'

/-- Helper: a successful merge loop preserves the no-zero invariant. -/
theorem mergeLevels_noZero :
    ∀ (l : List (PyStr × PyStr)) (d d' : Book),
      noZeroQty d → mergeLevels d l = .ok d' → noZeroQty d' := by
  intro l
  induction l with
  | nil =>
      intro d d' h hm
      cases hm
      exact h
  | cons pq rest ih =>
      intro d d' h hm
      cases hq : pq.2.val with
      | none =>
          simp only [mergeLevels, hq] at hm
          exact Except.noConfusion hm
      | some q =>
          simp only [mergeLevels, hq] at hm
          by_cases h0 : q = 0
          · rw [if_pos h0] at hm
            exact ih _ _ (noZero_dictPop h pq.1) hm
          · rw [if_neg h0] at hm
            refine ih _ _ (noZero_dictSet h ?_) hm
            rw [hq]
            intro hc
            exact h0 (Option.some_injective _ hc)

/-- Helper: one successful `update_bids` call preserves the invariant. -/
theorem update_bids_noZero {st st' : MarketDataBridge}
    {l : List (PyStr × PyStr)} (h : noZeroQty st.bids)
    (hm : update_bids st l = .ok st') : noZeroQty st'.bids := by
  unfold update_bids at hm
  cases hml : mergeLevels st.bids l with
  | error d => rw [hml] at hm; cases hm
  | ok d =>
      rw [hml] at hm
      cases hm
      exact mergeLevels_noZero l st.bids d h hml

/-- Helper: lookup of `k` after popping `k` fails. -/
theorem dictLookup_pop_self (d : Book) (k : PyStr) :
    dictLookup (dictPop d k) k = none := by
  induction d with
  | nil => rfl
  | cons p rest ih =>
      cases hp : p.1 == k with
      | true => simpa [dictPop, List.filter_cons, hp] using ih
      | false =>
          simp [dictPop, List.filter_cons, hp, dictLookup, List.find?]

/-- Helper: the in-place-replace branch of `dictSet` makes `k` map to `v`
when some entry has key `k`. -/
theorem lookup_map_set_self (k v : PyStr) :
    ∀ d : Book, (d.any fun p => p.1 == k) = true →
      dictLookup (d.map fun p => if p.1 == k then (k, v) else p) k
        = some v := by
  intro d
  induction d with
  | nil => intro h; simp at h
  | cons p rest ih =>
      intro h
      cases hp : p.1 == k with
      | true => simp [dictLookup, List.find?, hp]
      | false =>
          simp only [List.any_cons, hp, Bool.false_or] at h
          simpa [dictLookup, List.find?, hp] using ih h

/-- Helper: the append branch of `dictSet` makes `k` map to `v` when no
entry has key `k`. -/
theorem lookup_append_set_self (k v : PyStr) :
    ∀ d : Book, (∀ p ∈ d, (p.1 == k) = false) →
      dictLookup (d ++ [(k, v)]) k = some v := by
  intro d
  induction d with
  | nil => intro _; simp [dictLookup, List.find?]
  | cons p rest ih =>
      intro h
      have hp := h p (List.mem_cons_self p rest)
      simpa [dictLookup, List.find?, hp]
        using ih (fun x hx => h x (List.mem_cons_of_mem p hx))

/-- Helper: lookup of `k` after upserting `k ↦ v` gives `v`. -/
theorem dictLookup_set_self (d : Book) (k v : PyStr) :
    dictLookup (dictSet d k v) k = some v := by
  unfold dictSet
  by_cases hany : (d.any fun p => p.1 == k) = true
  · rw [if_pos hany]; exact lookup_map_set_self k v d hany
  · rw [if_neg hany]
    have hall : ∀ p ∈ d, (p.1 == k) = false := by
      intro p hp
      cases hc : p.1 == k with
      | true => exact absurd (List.any_eq_true.mpr ⟨p, hp, hc⟩) hany
      | false => rfl
    exact lookup_append_set_self k v d hall

/-- Helper: popping a different key leaves a lookup unchanged. -/
theorem dictLookup_pop_ne (d : Book) {k k' : PyStr} (h : (k == k') = false) :
    dictLookup (dictPop d k) k' = dictLookup d k' := by
  induction d with
  | nil => rfl
  | cons p rest ih =>
      cases hp : p.1 == k with
      | true =>
          have hpk : p.1 = k := by simpa using hp
          have hp' : (p.1 == k') = false := by rw [hpk]; exact h
          simpa [dictPop, List.filter_cons, hp, dictLookup, List.find?, hp']
            using ih
      | false =>
          cases hp' : p.1 == k' with
          | true => simp [dictPop, List.filter_cons, hp, dictLookup, List.find?, hp']
          | false =>
              simpa [dictPop, List.filter_cons, hp, dictLookup, List.find?, hp']
                using ih

/-- Helper: the in-place-replace branch of `dictSet` for key `k` leaves
the lookup of a different key `k'` unchanged. -/
theorem lookup_map_set_ne (k k' v : PyStr) (h : (k == k') = false) :
    ∀ d : Book,
      dictLookup (d.map fun p => if p.1 == k then (k, v) else p) k'
        = dictLookup d k' := by
  intro d
  induction d with
  | nil => rfl
  | cons p rest ih =>
      cases hp : p.1 == k with
      | true =>
          have hpk : p.1 = k := by simpa using hp
          have hp' : (p.1 == k') = false := by rw [hpk]; exact h
          simpa [dictLookup, List.find?, hp, hp', h] using ih
      | false =>
          cases hp' : p.1 == k' with
          | true => simp [dictLookup, List.find?, hp, hp']
          | false => simpa [dictLookup, List.find?, hp, hp'] using ih

/-- Helper: the append branch of `dictSet` for key `k` leaves the lookup
of a different key `k'` unchanged. -/
theorem lookup_append_set_ne (k k' v : PyStr) (h : (k == k') = false)
    (d : Book) :
    dictLookup (d ++ [(k, v)]) k' = dictLookup d k' := by
  induction d with
  | nil => simp [dictLookup, List.find?, h]
  | cons p rest ih =>
      cases hp' : p.1 == k' with
      | true => simp [dictLookup, List.find?, hp']
      | false => simpa [dictLookup, List.find?, hp'] using ih

/-- Helper: upserting a different key leaves a lookup unchanged. -/
theorem dictLookup_set_ne (d : Book) {k k' : PyStr} (v : PyStr)
    (h : (k == k') = false) :
    dictLookup (dictSet d k v) k' = dictLookup d k' := by
  unfold dictSet
  by_cases hany : (d.any fun p => p.1 == k) = true
  · rw [if_pos hany]; exact lookup_map_set_ne k k' v h d
  · rw [if_neg hany]; exact lookup_append_set_ne k k' v h d

/-- Helper: a merge whose pairs never mention key `p` leaves the lookup of
`p` unchanged. -/
theorem mergeLevels_lookup_frozen :
    ∀ (l : List (PyStr × PyStr)) (d d' : Book) (p : PyStr),
      (∀ pq ∈ l, pq.1 ≠ p) → mergeLevels d l = .ok d' →
      dictLookup d' p = dictLookup d p := by
  intro l
  induction l with
  | nil =>
      intro d d' p _ hm
      cases hm
      rfl
  | cons pq rest ih =>
      intro d d' p h hm
      cases hq : pq.2.val with
      | none =>
          simp only [mergeLevels, hq] at hm
          exact Except.noConfusion hm
      | some q =>
          simp only [mergeLevels, hq] at hm
          have hne : (pq.1 == p) = false := by
            cases hc : pq.1 == p with
            | true =>
                exact absurd (by simpa using hc)
                  (h pq (List.mem_cons_self pq rest))
            | false => rfl
          have hrest : ∀ x ∈ rest, x.1 ≠ p :=
            fun x hx => h x (List.mem_cons_of_mem pq hx)
          by_cases h0 : q = 0
          · rw [if_pos h0] at hm
            rw [ih _ _ _ hrest hm, dictLookup_pop_ne _ hne]
          · rw [if_neg h0] at hm
            rw [ih _ _ _ hrest hm, dictLookup_set_ne _ _ hne]

/-- Helper: a merge splits along list append. -/
theorem mergeLevels_append :
    ∀ (l₁ l₂ : List (PyStr × PyStr)) (d : Book),
      mergeLevels d (l₁ ++ l₂)
        = match mergeLevels d l₁ with
          | .error e => .error e
          | .ok m => mergeLevels m l₂ := by
  intro l₁
  induction l₁ with
  | nil => intro l₂ d; rfl
  | cons pq rest ih =>
      intro l₂ d
      simp only [List.cons_append, mergeLevels]
      cases hq : pq.2.val with
      | none => rfl
      | some q => exact ih l₂ _

/-- C3 (counterexample): `update_order_book` stores the given maps
verbatim — no zero-quantity filtering — so a wholesale replace with a
level whose quantity parses to 0 leaves that zero entry in the bid map,
violating the claimed invariant over sequences that include replaces. -/
theorem replace_stores_zero_level_counterexample :
    dictLookup
        (update_order_book bridge0 [(⟨"1", some 1⟩, ⟨"0", some 0⟩)] []).bids
        ⟨"1", some 1⟩ = some ⟨"0", some 0⟩
      ∧ (⟨"0", some 0⟩ : PyStr).val = some 0 := by
  constructor <;> rfl

/-- C3 (amended): the no-zero invariant holds across every sequence of
successful merge updates (wholesale replaces excluded, since they store
the maps verbatim): starting from a bid map with no zero-parsing entry,
any sequence of `update_bids` calls that completes normally preserves the
invariant; and in a single successful call with distinct keys, a level
merged with a quantity parsing to 0 is absent afterwards while a level
merged with a nonzero-parsing quantity maps to exactly that quantity. -/
theorem merge_no_zero_invariant :
    (∀ (st : MarketDataBridge) (calls : List (List (PyStr × PyStr)))
       (st' : MarketDataBridge),
        noZeroQty st.bids → update_bids_seq st calls = .ok st' →
        noZeroQty st'.bids)
    ∧ (∀ (st : MarketDataBridge) (levels : List (PyStr × PyStr))
         (st' : MarketDataBridge) (p q : PyStr),
        (levels.map Prod.fst).Nodup → (p, q) ∈ levels →
        update_bids st levels = .ok st' →
        (q.val = some 0 → dictLookup st'.bids p = none)
        ∧ (∀ v, q.val = some v → v ≠ 0 → dictLookup st'.bids p = some q)) := by
  constructor
  · intro st calls
    induction calls generalizing st with
    | nil =>
        intro st' h hm
        cases hm
        exact h
    | cons l ls ih =>
        intro st' h hm
        simp only [update_bids_seq] at hm
        cases hu : update_bids st l with
        | error s => rw [hu] at hm; cases hm
        | ok s =>
            rw [hu] at hm
            exact ih s st' (update_bids_noZero h hu) hm
  · intro st levels st' p q hnd hmem hu
    obtain ⟨l₁, l₂, rfl⟩ := List.append_of_mem hmem
    unfold update_bids at hu
    cases hml : mergeLevels st.bids (l₁ ++ (p, q) :: l₂) with
    | error d => rw [hml] at hu; cases hu
    | ok d =>
        rw [hml] at hu
        cases hu
        rw [mergeLevels_append] at hml
        cases hml₁ : mergeLevels st.bids l₁ with
        | error e => rw [hml₁] at hml; cases hml
        | ok m =>
            rw [hml₁] at hml
            have hfrozen : ∀ x ∈ l₂, x.1 ≠ p := by
              intro x hx
              simp only [List.map_append, List.map_cons] at hnd
              have h2 := hnd.of_append_right
              have := (List.nodup_cons.mp h2).1
              intro hc
              exact this (hc ▸ List.mem_map_of_mem Prod.fst hx)
            constructor
            · intro hq0
              simp only [mergeLevels, hq0] at hml
              rw [if_pos trivial] at hml
              rw [mergeLevels_lookup_frozen l₂ _ _ p hfrozen hml]
              exact dictLookup_pop_self m p
            · intro v hqv hv
              simp only [mergeLevels, hqv] at hml
              rw [if_neg hv] at hml
              rw [mergeLevels_lookup_frozen l₂ _ _ p hfrozen hml]
              exact dictLookup_set_self m p q

/-- Witness for C3's amended theorem: a concrete two-level merge on an
empty book deletes the zero level and keeps the nonzero one. -/
theorem merge_no_zero_invariant_witness :
    dictLookup
        ({ bridge0 with
           bids := [(⟨"2", some 2⟩, ⟨"5", some 5⟩)] } : MarketDataBridge).bids
        ⟨"1", some 1⟩ = none
      ∧ dictLookup
          ({ bridge0 with
             bids := [(⟨"2", some 2⟩, ⟨"5", some 5⟩)] } : MarketDataBridge).bids
          ⟨"2", some 2⟩ = some ⟨"5", some 5⟩ := by
  constructor
  · exact (merge_no_zero_invariant.2 bridge0
      [(⟨"1", some 1⟩, ⟨"0", some 0⟩), (⟨"2", some 2⟩, ⟨"5", some 5⟩)]
      _ ⟨"1", some 1⟩ ⟨"0", some 0⟩ (by decide) (by decide) rfl).1 rfl
  · exact (merge_no_zero_invariant.2 bridge0
      [(⟨"1", some 1⟩, ⟨"0", some 0⟩), (⟨"2", some 2⟩, ⟨"5", some 5⟩)]
      _ ⟨"2", some 2⟩ ⟨"5", some 5⟩ (by decide) (by decide) rfl).2 5 rfl
      (by norm_num)

/-! ### C5 -/

/-- Helper: a non-large trade resets the count and keeps the direction. -/
theorem ltsStep_small {threshold med size : ℚ} (dir : Bool) (cnt : ℕ)
    (last : Option Bool) (h : ¬ threshold * med < size) :
    ltsStep threshold med size dir cnt last = (0, last) := by
  simp [ltsStep, h]

/-- Helper: a large trade with no recorded direction extends the run. -/
theorem ltsStep_large_none {threshold med size : ℚ} (dir : Bool) (cnt : ℕ)
    (h : threshold * med < size) :
    ltsStep threshold med size dir cnt none = (cnt + 1, some dir) := by
  simp [ltsStep, h]

/-- Helper: a large trade matching the recorded direction extends the
run. -/
theorem ltsStep_large_same {threshold med size : ℚ} (dir : Bool) (cnt : ℕ)
    (h : threshold * med < size) :
    ltsStep threshold med size dir cnt (some dir) = (cnt + 1, some dir) := by
  simp [ltsStep, h]

/-- Helper: a large trade against the recorded direction restarts the run
at 1. -/
theorem ltsStep_large_diff {threshold med size : ℚ} {d dir : Bool} (cnt : ℕ)
    (h : threshold * med < size) (hne : d ≠ dir) :
    ltsStep threshold med size dir cnt (some d) = (1, some dir) := by
  simp [ltsStep, h, hne]

/-- Helper: one unfolding of the scan loop. -/
theorem ltsLoop_cons (minSeq : ℕ) (threshold med size : ℚ) (dir : Bool)
    (rest : List (ℚ × Bool)) (cnt : ℕ) (last : Option Bool) :
    ltsLoop minSeq threshold med ((size, dir) :: rest) cnt last
      = if minSeq ≤ (ltsStep threshold med size dir cnt last).1 then true
        else
          ltsLoop minSeq threshold med rest
            (ltsStep threshold med size dir cnt last).1
            (ltsStep threshold med size dir cnt last).2 := rfl

/-- Helper: with zero median, a scan over trades that all have size 0
never fires. -/
theorem ltsLoop_all_zero :
    ∀ (pairs : List (ℚ × Bool)) (cnt : ℕ) (last : Option Bool),
      (∀ pr ∈ pairs, pr.1 = 0) → ltsLoop 3 10 0 pairs cnt last = false := by
  intro pairs
  induction pairs with
  | nil => intro cnt last _; rfl
  | cons pr rest ih =>
      intro cnt last h
      obtain ⟨sz, dr⟩ := pr
      have h0 : sz = 0 := h (sz, dr) (List.mem_cons_self _ _)
      rw [ltsLoop_cons,
        ltsStep_small dr cnt last (by rw [h0, mul_zero]; exact lt_irrefl 0)]
      rw [if_neg (by simp)]
      exact ih _ _ (fun x hx => h x (List.mem_cons_of_mem _ hx))

/-- Helper: with zero median, a nonempty run of positive-size trades of
direction `d`, long enough to push the running count to 3, fires. -/
theorem ltsLoop_run (d : Bool) :
    ∀ (l : List (ℚ × Bool)) (cnt : ℕ),
      (∀ pr ∈ l, 0 < pr.1 ∧ pr.2 = d) → 3 ≤ cnt + l.length → l ≠ [] →
      ltsLoop 3 10 0 l cnt (some d) = true := by
  intro l
  induction l with
  | nil => intro cnt _ _ hne; exact absurd rfl hne
  | cons pr rest ih =>
      intro cnt hall hlen _
      obtain ⟨sz, dr⟩ := pr
      obtain ⟨hpos, hdr⟩ := hall (sz, dr) (List.mem_cons_self _ _)
      have hdr' : dr = d := hdr
      rw [ltsLoop_cons, hdr', ltsStep_large_same d cnt (by simpa using hpos)]
      dsimp only
      by_cases h3 : 3 ≤ cnt + 1
      · rw [if_pos h3]
      · rw [if_neg h3]
        cases rest with
        | nil => simp only [List.length_cons, List.length_nil] at hlen; omega
        | cons pr2 rest2 =>
            refine ih (cnt + 1)
              (fun x hx => hall x (List.mem_cons_of_mem _ hx)) ?_ (by simp)
            simp only [List.length_cons] at hlen ⊢
            omega

/-- Helper: with zero median, whatever came before, a final three
positive-size trades of one direction `d` make the scan fire. -/
theorem ltsLoop_suffix3 (d : Bool) (a b c : ℚ)
    (ha : 0 < a) (hb : 0 < b) (hc : 0 < c) :
    ∀ (l : List (ℚ × Bool)) (cnt : ℕ) (last : Option Bool),
      ltsLoop 3 10 0 (l ++ [(a, d), (b, d), (c, d)]) cnt last = true := by
  have htail : ∀ (cnt : ℕ), 1 ≤ cnt →
      ltsLoop 3 10 0 [(b, d), (c, d)] cnt (some d) = true := by
    intro cnt h1
    refine ltsLoop_run d [(b, d), (c, d)] cnt ?_ ?_ (by simp)
    · intro pr hpr
      simp only [List.mem_cons, List.not_mem_nil, or_false] at hpr
      rcases hpr with rfl | rfl
      · exact ⟨hb, rfl⟩
      · exact ⟨hc, rfl⟩
    · simp only [List.length_cons, List.length_nil]
      omega
  intro l
  induction l with
  | nil =>
      intro cnt last
      rw [List.nil_append, ltsLoop_cons]
      cases last with
      | none =>
          rw [ltsStep_large_none d cnt (by simpa using ha)]
          dsimp only
          by_cases h3 : 3 ≤ cnt + 1
          · rw [if_pos h3]
          · rw [if_neg h3]; exact htail (cnt + 1) (by omega)
      | some d' =>
          by_cases hdd : d' = d
          · subst hdd
            rw [ltsStep_large_same d' cnt (by simpa using ha)]
            dsimp only
            by_cases h3 : 3 ≤ cnt + 1
            · rw [if_pos h3]
            · rw [if_neg h3]; exact htail (cnt + 1) (by omega)
          · rw [ltsStep_large_diff cnt (by simpa using ha) hdd]
            dsimp only
            rw [if_neg (by omega)]
            exact htail 1 (by omega)
  | cons pr rest ih =>
      intro cnt last
      obtain ⟨sz, dr⟩ := pr
      rw [List.cons_append, ltsLoop_cons]
      by_cases hsz : (10 : ℚ) * 0 < sz
      · cases last with
        | none =>
            rw [ltsStep_large_none dr cnt hsz]
            dsimp only
            by_cases h3 : 3 ≤ cnt + 1
            · rw [if_pos h3]
            · rw [if_neg h3]; exact ih _ _
        | some d' =>
            by_cases hdd : d' = dr
            · subst hdd
              rw [ltsStep_large_same d' cnt hsz]
              dsimp only
              by_cases h3 : 3 ≤ cnt + 1
              · rw [if_pos h3]
              · rw [if_neg h3]; exact ih _ _
            · rw [ltsStep_large_diff cnt hsz hdd]
              dsimp only
              rw [if_neg (by omega)]
              exact ih _ _
      · rw [ltsStep_small dr cnt _ hsz]
        dsimp only
        rw [if_neg (by omega)]
        exact ih _ _

/-- A trade with quantity text `"0"`. -/
def zeroQtyTrade : Trade :=
  { price := none, quantity := some ⟨"0", some 0⟩, time := none,
    is_buyer_maker := PyBool.absent, trade_id := none }

/-- A trade with quantity text `"1"`. -/
def oneQtyTrade : Trade :=
  { price := none, quantity := some ⟨"1", some 1⟩, time := none,
    is_buyer_maker := PyBool.absent, trade_id := none }

/-- A 10-trade window whose median volume is 0: seven zero-volume trades
followed by three unit-volume trades, all on the buy side. -/
def zeroMedianSt : MarketDataBridge :=
  { bridge0 with
    recent_trades :=
      List.replicate 7 zeroQtyTrade ++ List.replicate 3 oneQtyTrade }

/-- C5 (counterexample): a window of 10 trades whose median volume is 0 on
which `detects_large_trade_sequence` returns true, not the claimed false:
the code has no zero-median guard, and with median 0 the largeness test
`size > 10 * median` degenerates to `size > 0`, so the three trailing
unit-volume buys form a qualifying sequence. -/
theorem lts_zero_median_counterexample :
    zeroMedianSt.recent_trades.length = 10
      ∧ (zeroMedianSt.recent_trades.mapM tradeSize).map pymedian = some 0
      ∧ detects_large_trade_sequence zeroMedianSt = some true := by
  refine ⟨rfl, by with_unfolding_all rfl, by with_unfolding_all rfl⟩

/-- C5 (amended): on a window of at least 10 trades with parseable
quantities and zero median volume the detector has no zero-median guard:
it returns false when no trade among the 10 most recent has positive
volume, but it returns true whenever the three most recent trades have
positive volume and share one aggressor side, because with median 0 every
positive-volume trade counts as large. -/
theorem lts_zero_median_behavior
    (st : MarketDataBridge) (sizes : List ℚ)
    (hlen : 10 ≤ st.recent_trades.length)
    (hsz : st.recent_trades.mapM tradeSize = some sizes)
    (hmed : pymedian sizes = 0) :
    ((∀ t ∈ lastN 10 st.recent_trades, tradeSize t = some 0) →
        detects_large_trade_sequence st = some false)
    ∧ (∀ (rest : List Trade) (t₁ t₂ t₃ : Trade),
        lastN 10 st.recent_trades = rest ++ [t₁, t₂, t₃] →
        (∃ q, tradeSize t₁ = some q ∧ 0 < q) →
        (∃ q, tradeSize t₂ = some q ∧ 0 < q) →
        (∃ q, tradeSize t₃ = some q ∧ 0 < q) →
        isBuyer t₁ = isBuyer t₂ → isBuyer t₂ = isBuyer t₃ →
        detects_large_trade_sequence st = some true) := by
  have hnotlt : ¬ st.recent_trades.length < 10 := by omega
  constructor
  · intro hall
    simp only [detects_large_trade_sequence, hsz]
    rw [if_neg hnotlt, hmed]
    refine congrArg some ?_
    apply ltsLoop_all_zero
    intro pr hpr
    obtain ⟨t, ht, rfl⟩ := List.mem_map.mp hpr
    simp [hall t ht]
  · intro rest t₁ t₂ t₃ hsplit h1 h2 h3 hd12 hd23
    obtain ⟨q₁, hq₁, hq₁pos⟩ := h1
    obtain ⟨q₂, hq₂, hq₂pos⟩ := h2
    obtain ⟨q₃, hq₃, hq₃pos⟩ := h3
    simp only [detects_large_trade_sequence, hsz]
    rw [if_neg hnotlt, hmed, hsplit]
    simp only [List.map_append, List.map_cons, List.map_nil, hq₁, hq₂, hq₃,
      Option.getD_some, ← hd12, ← hd23]
    exact congrArg some
      (ltsLoop_suffix3 (isBuyer t₁) q₁ q₂ q₃ hq₁pos hq₂pos hq₃pos _ 0 none)

/-- A 10-trade window of zero-volume trades only. -/
def allZeroSt : MarketDataBridge :=
  { bridge0 with recent_trades := List.replicate 10 zeroQtyTrade }

/-- Witness for C5's amended theorem: on an all-zero-volume window (median
0, no positive volume in the last 10) the detector returns false. -/
theorem lts_zero_median_behavior_witness :
    detects_large_trade_sequence allZeroSt = some false := by
  have h := (lts_zero_median_behavior allZeroSt (List.replicate 10 0)
    (by decide) (by with_unfolding_all rfl) (by with_unfolding_all rfl)).1
  exact h (by decide)

/-! ### C4 -/

/-- C4 (counterexample): with the initial zero entry price and a zero
current price — the state a force BUY / force SELL command meets before
any market data has arrived — both `enter_trade` and `exit_trade` raise
`ZeroDivisionError` instead of completing normally. -/
theorem zen_zero_division_counterexample :
    (enter_trade zen0 0 0).isOk = false ∧ (exit_trade zen0 100).isOk = false := by
  constructor <;> rfl

/-- C4 (amended): `enter_trade` completes normally exactly when the given
entry price is nonzero, and `exit_trade` completes normally exactly when
the stored entry price is nonzero; at zero either operation raises
`ZeroDivisionError` (the division `risk / price` resp. the PnL division),
which the out-of-band force commands can reach. -/
theorem zen_total_iff_nonzero_entry (z : ZenMaster) (p : ℚ) (now : Int) :
    ((enter_trade z p now).isOk = true ↔ p ≠ 0)
    ∧ ((exit_trade z p).isOk = true ↔ z.entry_price ≠ 0) := by
  refine ⟨?_, ?_⟩
  · unfold enter_trade
    split <;> simp_all [Except.isOk, Except.toBool]
  · unfold exit_trade
    split <;> simp_all [Except.isOk, Except.toBool]

/-! ### C7 -/

/-- A bridge holding a small concrete order book whose numeric ordering
differs from the lexicographic one (the key text `"9"` sorts after
`"10"` as text but 9 < 10 numerically). -/
def bookSt : MarketDataBridge :=
  { bridge0 with
    bids := [(⟨"9", some 9⟩, ⟨"1", some 1⟩), (⟨"10", some 10⟩, ⟨"2", some 2⟩)],
    asks := [(⟨"12", some 12⟩, ⟨"3", some 3⟩), (⟨"11", some 11⟩, ⟨"4", some 4⟩)] }

/-- C7: for every book state whose price keys all parse and every `n`,
`get_top_n_levels` returns bids non-increasing and asks non-decreasing by
the numeric value of the price key (the sort key is `float(price)`, not
the string), each of length at most `n`. -/
theorem get_top_n_levels_sorted
    (st : MarketDataBridge) (n : ℕ)
    (hb : ∀ p ∈ st.bids, p.1.val.isSome = true)
    (ha : ∀ p ∈ st.asks, p.1.val.isSome = true) :
    ∃ tb ta, get_top_n_levels st n = .ok (tb, ta)
      ∧ tb.Pairwise bidRel ∧ ta.Pairwise askRel
      ∧ tb.length ≤ n ∧ ta.length ≤ n := by
  unfold get_top_n_levels
  rw [if_pos (by simp [List.all_eq_true.mpr hb, List.all_eq_true.mpr ha])]
  refine ⟨_, _, rfl, ?_, ?_, ?_, ?_⟩
  · exact (List.sorted_insertionSort bidRel st.bids).sublist
      (List.take_sublist n _)
  · exact (List.sorted_insertionSort askRel st.asks).sublist
      (List.take_sublist n _)
  · rw [List.length_take]; exact min_le_left _ _
  · rw [List.length_take]; exact min_le_left _ _

/-- Witness for C7 at the concrete two-level book. -/
theorem get_top_n_levels_sorted_witness :
    ∃ tb ta, get_top_n_levels bookSt 10 = .ok (tb, ta)
      ∧ tb.Pairwise bidRel ∧ ta.Pairwise askRel
      ∧ tb.length ≤ 10 ∧ ta.length ≤ 10 :=
  get_top_n_levels_sorted bookSt 10 (by decide) (by decide)

/-! ### C9 -/

/-- C9: after a wholesale replace with maps `B`, `A` whose keys all parse
and whose bid prices are pairwise numerically distinct,
`get_top_n_levels (len B)` returns on the bid side exactly the entries of
`B`, sorted strictly descending by numeric price: the replace discarded
all prior bid and ask state (the prior state `st` is arbitrary). -/
theorem replace_then_top_returns_sorted_bids
    (st : MarketDataBridge) (B A : Book)
    (hkb : ∀ p ∈ B, p.1.val.isSome = true)
    (hka : ∀ p ∈ A, p.1.val.isSome = true)
    (hdist : B.Pairwise (fun x y => keyVal x ≠ keyVal y)) :
    ∃ tb ta,
      get_top_n_levels (update_order_book st B A) B.length = .ok (tb, ta)
        ∧ List.Perm tb B
        ∧ tb.Pairwise (fun x y => keyVal y < keyVal x) := by
  unfold update_order_book get_top_n_levels
  dsimp only
  rw [if_pos (by simp [List.all_eq_true.mpr hkb, List.all_eq_true.mpr hka])]
  have hlen : (B.insertionSort bidRel).length = B.length :=
    List.length_insertionSort bidRel B
  have htake : (B.insertionSort bidRel).take B.length = B.insertionSort bidRel := by
    rw [← hlen]
    exact List.take_length _
  have hperm : List.Perm (B.insertionSort bidRel) B :=
    List.perm_insertionSort bidRel B
  refine ⟨_, _, rfl, ?_, ?_⟩
  · rw [htake]; exact hperm
  · rw [htake]
    have hsorted : (B.insertionSort bidRel).Pairwise bidRel :=
      List.sorted_insertionSort bidRel B
    have hdist' : (B.insertionSort bidRel).Pairwise
        (fun x y => keyVal x ≠ keyVal y) :=
      ((hperm.pairwise_iff (fun hxy => Ne.symm hxy)).mpr) hdist
    refine (hsorted.and hdist').imp ?_
    intro x y hxy
    exact lt_of_le_of_ne hxy.1 (fun heq => hxy.2 heq.symm)

/-- Witness for C9: replacing an arbitrary prior book (the concrete
`bookSt`) with a two-level bid map returns exactly those two levels,
strictly descending. -/
theorem replace_then_top_returns_sorted_bids_witness :
    ∃ tb ta,
      get_top_n_levels
          (update_order_book bookSt
            [(⟨"3", some 3⟩, ⟨"7", some 7⟩), (⟨"4", some 4⟩, ⟨"8", some 8⟩)]
            []) 2 = .ok (tb, ta)
        ∧ List.Perm tb
            [(⟨"3", some 3⟩, ⟨"7", some 7⟩), (⟨"4", some 4⟩, ⟨"8", some 8⟩)]
        ∧ tb.Pairwise (fun x y => keyVal y < keyVal x) :=
  replace_then_top_returns_sorted_bids bookSt
    [(⟨"3", some 3⟩, ⟨"7", some 7⟩), (⟨"4", some 4⟩, ⟨"8", some 8⟩)] []
    (by decide) (by decide) (by decide)

/-! ### C6 -/

/-- Helper: summing quantities that all parse nonnegative succeeds and is
nonnegative. -/
theorem sumQty_nonneg (l : Book)
    (h : ∀ p ∈ l, ∃ q, p.2.val = some q ∧ 0 ≤ q) :
    ∃ s, sumQty l = some s ∧ 0 ≤ s := by
  induction l with
  | nil => exact ⟨0, rfl, le_refl 0⟩
  | cons p rest ih =>
      obtain ⟨q, hq, hq0⟩ := h p (List.mem_cons_self p rest)
      obtain ⟨s, hs, hs0⟩ := ih (fun x hx => h x (List.mem_cons_of_mem p hx))
      refine ⟨q + s, ?_, add_nonneg hq0 hs0⟩
      have hstep : sumQty (p :: rest)
          = match p.2.val, sumQty rest with
            | some q, some s => some (q + s)
            | _, _ => none := rfl
      rw [hstep, hq, hs]

/-- Helper: the truncated sorted view of a side is empty exactly when the
side's map is empty. -/
theorem take10_sort_empty_iff (l : Book)
    (r : PyStr × PyStr → PyStr × PyStr → Prop) [DecidableRel r] :
    (l.insertionSort r).take 10 = [] ↔ l = [] := by
  constructor
  · intro h
    have hlen := congrArg List.length h
    rw [List.length_take, List.length_insertionSort] at hlen
    simp only [List.length_nil] at hlen
    have : l.length = 0 := by omega
    exact List.length_eq_zero.mp this
  · intro h
    rw [h]
    rfl

/-- C6: for a book whose keys parse and whose quantities parse
nonnegative, the imbalance is defined and lies in [-1, 1]; it is exactly
0 when either side (hence when both sides) is empty, exactly 0 when the
combined top-10 quantity sum is 0, and otherwise equals
`(sumBid - sumAsk) / (sumBid + sumAsk)`. -/
theorem calculates_bid_ask_imbalance_spec
    (st : MarketDataBridge)
    (hbk : ∀ p ∈ st.bids, p.1.val.isSome = true)
    (hak : ∀ p ∈ st.asks, p.1.val.isSome = true)
    (hbq : ∀ p ∈ st.bids, ∃ q, p.2.val = some q ∧ 0 ≤ q)
    (haq : ∀ p ∈ st.asks, ∃ q, p.2.val = some q ∧ 0 ≤ q) :
    ∃ r, calculates_bid_ask_imbalance st = some r
      ∧ -1 ≤ r ∧ r ≤ 1
      ∧ ((st.bids = [] ∨ st.asks = []) → r = 0)
      ∧ (∀ tb ta b a, get_top_n_levels st 10 = .ok (tb, ta) →
          sumQty tb = some b → sumQty ta = some a →
          st.bids ≠ [] → st.asks ≠ [] →
          (b + a = 0 → r = 0)
          ∧ (b + a ≠ 0 → r = (b - a) / (b + a))) := by
  have hget : get_top_n_levels st 10
      = .ok ((st.bids.insertionSort bidRel).take 10,
             (st.asks.insertionSort askRel).take 10) := by
    unfold get_top_n_levels
    rw [if_pos (by simp [List.all_eq_true.mpr hbk, List.all_eq_true.mpr hak])]
  set tb := (st.bids.insertionSort bidRel).take 10 with htbdef
  set ta := (st.asks.insertionSort askRel).take 10 with htadef
  have htbmem : ∀ p ∈ tb, p ∈ st.bids := by
    intro p hp
    have h1 := List.take_subset 10 _ hp
    simpa using h1
  have htamem : ∀ p ∈ ta, p ∈ st.asks := by
    intro p hp
    have h1 := List.take_subset 10 _ hp
    simpa using h1
  obtain ⟨b, hb, hb0⟩ := sumQty_nonneg tb (fun p hp => hbq p (htbmem p hp))
  obtain ⟨a, ha, ha0⟩ := sumQty_nonneg ta (fun p hp => haq p (htamem p hp))
  have hcalc : calculates_bid_ask_imbalance st
      = if tb.isEmpty || ta.isEmpty then some 0
        else if b + a = 0 then some 0 else some ((b - a) / (b + a)) := by
    unfold calculates_bid_ask_imbalance
    rw [hget]
    dsimp only
    by_cases hemp : (tb.isEmpty || ta.isEmpty) = true
    · rw [if_pos hemp, if_pos hemp]
    · rw [if_neg hemp, if_neg hemp]
      simp only [hb, ha]
  have hident : ∀ tb' ta' b' a',
      get_top_n_levels st 10 = .ok (tb', ta') →
      sumQty tb' = some b' → sumQty ta' = some a' →
      b' = b ∧ a' = a := by
    intro tb' ta' b' a' hget' hb' ha'
    rw [hget] at hget'
    have hpair : tb = tb' ∧ ta = ta' := by simpa using hget'
    obtain ⟨h1, h2⟩ := hpair
    rw [← h1] at hb'
    rw [← h2] at ha'
    rw [hb] at hb'
    rw [ha] at ha'
    exact ⟨(Option.some_injective _ hb').symm, (Option.some_injective _ ha').symm⟩
  by_cases hemp : (tb.isEmpty || ta.isEmpty) = true
  · refine ⟨0, ?_, by norm_num, by norm_num, fun _ => rfl, ?_⟩
    · rw [hcalc, if_pos hemp]
    · intro tb' ta' b' a' _ _ _ hbne hane
      exfalso
      rcases Bool.or_eq_true_iff.mp hemp with h | h
      · exact hbne ((take10_sort_empty_iff st.bids bidRel).mp
          (List.isEmpty_iff.mp h))
      · exact hane ((take10_sort_empty_iff st.asks askRel).mp
          (List.isEmpty_iff.mp h))
  · have hbne : st.bids ≠ [] := by
      intro h
      refine hemp ?_
      have : tb = [] := by
        rw [htbdef]
        exact (take10_sort_empty_iff st.bids bidRel).mpr h
      rw [this]
      rfl
    have hane : st.asks ≠ [] := by
      intro h
      refine hemp ?_
      have : ta = [] := by
        rw [htadef]
        exact (take10_sort_empty_iff st.asks askRel).mpr h
      rw [this]
      simp
    by_cases h0 : b + a = 0
    · refine ⟨0, ?_, by norm_num, by norm_num, fun _ => rfl, ?_⟩
      · rw [hcalc, if_neg hemp, if_pos h0]
      · intro tb' ta' b' a' hget' hb' ha' _ _
        obtain ⟨hb'', ha''⟩ := hident tb' ta' b' a' hget' hb' ha'
        subst hb'' ha''
        exact ⟨fun _ => rfl, fun hne => absurd h0 hne⟩
    · have hpos : 0 < b + a :=
        lt_of_le_of_ne (add_nonneg hb0 ha0) (Ne.symm h0)
      refine ⟨(b - a) / (b + a), ?_, ?_, ?_, ?_, ?_⟩
      · rw [hcalc, if_neg hemp, if_neg h0]
      · rw [le_div_iff₀ hpos]; linarith
      · rw [div_le_one hpos]; linarith
      · intro h
        exact absurd h (by push_neg; exact ⟨hbne, hane⟩)
      · intro tb' ta' b' a' hget' hb' ha' _ _
        obtain ⟨hb'', ha''⟩ := hident tb' ta' b' a' hget' hb' ha'
        subst hb'' ha''
        exact ⟨fun h => absurd h h0, fun _ => rfl⟩

/-- Witness for C6 at the concrete two-level book (bid sum 3, ask sum 7,
imbalance -2/5). -/
theorem calculates_bid_ask_imbalance_spec_witness :
    ∃ r, calculates_bid_ask_imbalance bookSt = some r
      ∧ -1 ≤ r ∧ r ≤ 1
      ∧ ((bookSt.bids = [] ∨ bookSt.asks = []) → r = 0)
      ∧ (∀ tb ta b a, get_top_n_levels bookSt 10 = .ok (tb, ta) →
          sumQty tb = some b → sumQty ta = some a →
          bookSt.bids ≠ [] → bookSt.asks ≠ [] →
          (b + a = 0 → r = 0)
          ∧ (b + a ≠ 0 → r = (b - a) / (b + a))) :=
  calculates_bid_ask_imbalance_spec bookSt (by decide) (by decide)
    (by decide) (by decide)

/-! ### C8 -/

/-- A ZenMaster in a trade entered at price 100. -/
def zen100 : ZenMaster :=
  { zen0 with entry_price := 100, state := BotState.in_trade }

/-- C8: for a positive entry price (and a book on which the imbalance is
defined), `should_exit_trade` returns true exactly when
`pnlPct ≥ 6` (inclusive take-profit) or `pnlPct ≤ -2` (stop loss) or the
imbalance is < -0.5, and false otherwise. -/
theorem should_exit_trade_spec
    (z : ZenMaster) (st : MarketDataBridge) (price v : ℚ)
    (hpos : 0 < z.entry_price)
    (himb : calculates_bid_ask_imbalance st = some v) :
    should_exit_trade z st price
      = some (decide (6 ≤ pnlPct z.entry_price price)
          || decide (pnlPct z.entry_price price ≤ -2)
          || decide (v < -(1 / 2))) := by
  unfold should_exit_trade
  rw [if_neg (ne_of_gt hpos)]
  by_cases h6 : 6 ≤ pnlPct z.entry_price price
  · rw [if_pos h6]
    simp [h6]
  · rw [if_neg h6]
    by_cases h2 : pnlPct z.entry_price price ≤ -2
    · rw [if_pos h2]
      simp [h6, h2]
    · rw [if_neg h2]
      rw [himb]
      simp [h6, h2]

/-- Witness for C8 at the boundary scenario: entry price 100, current
price 106, pnl exactly 6.0% — the inclusive take-profit fires and the
exit decision is true. -/
theorem should_exit_trade_spec_witness :
    should_exit_trade zen100 bookSt 106 = some true := by
  have h := should_exit_trade_spec zen100 bookSt 106 (-(2 / 5))
    (by norm_num [zen100, zen0]) (by with_unfolding_all rfl)
  rw [h]
  have hpnl : pnlPct zen100.entry_price 106 = 6 := by
    norm_num [pnlPct, zen100, zen0]
  rw [hpnl]
  with_unfolding_all rfl

/-! ### C10 -/

/-- C10: `on_trade_update` assigns the unguarded `current_price` setter
after `add_trade`, so for every delivered event with an integer timestamp
and a parseable price `q`, the callback completes and leaves
`current_price = q` — even when the event's timestamp is older than the
stored `last_trade_time` and `add_trade`'s own guard declined to update. -/
theorem on_trade_update_sets_price_unguarded
    (st : MarketDataBridge) (td : TradeData) (t : Int) (s : PyStr) (q : ℚ)
    (hT : td.T = some (TVal.int t)) (hp : td.p = some s) (hq : s.val = some q) :
    (on_trade_update st td).toOption.map (fun m => m.current_price) = some q := by
  by_cases hlt : st.last_trade_time < t <;>
    simp [on_trade_update, hT, hp, add_trade, floatOrDefault, hq, hlt,
      Except.toOption]

/-- Witness for C10 at a concrete stale event: the bridge has
`last_trade_time = 5`, the event carries the older timestamp 1, yet the
composed ingestion path ends with `current_price = 42`. -/
theorem on_trade_update_sets_price_unguarded_witness :
    (on_trade_update tieSt
        { p := some ⟨"42", some 42⟩, q := none, T := some (TVal.int 1),
          m := none, t := none }).toOption.map (fun m => m.current_price)
      = some (42 : ℚ) := by
  exact on_trade_update_sets_price_unguarded tieSt _ 1 ⟨"42", some 42⟩ 42 rfl rfl rfl

end Sdfs
